import Mathlib

/-!
Verification development for the cursor subsystem of a rich-text editor
(file `src/js/utils/cursor.js`).  The document model, the native DOM
selection, and the render tree are embedded shallowly; the operations of
the `Cursor` class are translated from the source.  External collaborators
that are not part of the source file (`containsNode`, `comparePosition`,
`Position.fromNode`, `Range.create`, `findRenderNodeFromElement`,
the section `length` getter and the linked-list `readRange`) are modelled
from the specification, and each such definition is marked in its doc
comment.
-/

set_option autoImplicit false

namespace MobiledocCursor

/-- The body of a document section: a text section holds an ordered list of
markers (here represented by their lengths), a card section is atomic with a
logical length, and a blank section has no markers. -/
inductive SectionBody where
  | text (markers : List Nat)
  | card (len : Nat)
  | blank
  deriving DecidableEq, Repr

/-- A post is the ordered list of its sections; a section is identified by
its index in this list. -/
abbrev Post := List SectionBody

/-- The `isCardSection` flag of the section at index `s`. -/
def isCardSectionIdx (post : Post) (s : Nat) : Bool :=
  match post[s]? with
  | some (.card _) => true
  | _ => false

/-- The `isBlank` flag of the section at index `s`. -/
def isBlankIdx (post : Post) (s : Nat) : Bool :=
  match post[s]? with
  | some .blank => true
  | _ => false

/-- Modelled from the spec: the logical length of a section (sum of marker
lengths for a text section, the atomic length for a card, 0 for a blank). -/
def sectionLength (post : Post) (s : Nat) : Nat :=
  match post[s]? with
  | some (.text ms) => ms.sum
  | some (.card len) => len
  | _ => 0

/-- Native DOM nodes of the rendered editor: the editable root, the rendered
element of each section, the rendered element of each marker, the two
zero-width anchor text nodes inside a rendered card, other (non-addressable)
descendants of a rendered card, and nodes outside the editable root. -/
inductive NNode where
  | root
  | sectionEl (s : Nat)
  | markerEl (s m : Nat)
  | cardAnchor (s : Nat) (last : Bool)
  | cardInner (s k : Nat)
  | outside (n : Nat)
  deriving DecidableEq, Repr

/-- A native boundary point: a node together with a native offset. -/
structure BP where
  node : NNode
  off : Nat
  deriving DecidableEq, Repr

/-- A logical position: the owning section, the offset within the section,
and (for text sections) the owning marker and the offset inside it. -/
structure Position where
  sectionIdx : Nat
  offset : Nat
  markerIdx : Nat
  offsetInMarker : Nat
  deriving DecidableEq, Repr

/-- Sum of the lengths of the first `m` markers. -/
def markerSumTake (ms : List Nat) (m : Nat) : Nat := (ms.take m).sum

/-- The Position invariant of the data model: a card-section position has
offset 0 or the card length and no marker; a blank-section position has
offset 0 and no marker; a text-section position has a marker index inside
the marker list, an in-bounds offset in that marker, and a section offset
that agrees with the marker decomposition. -/
def validPosition (post : Post) (p : Position) : Bool :=
  match post[p.sectionIdx]? with
  | none => false
  | some (.card len) =>
      (p.offset == 0 || p.offset == len) && p.markerIdx == 0 && p.offsetInMarker == 0
  | some .blank =>
      p.offset == 0 && p.markerIdx == 0 && p.offsetInMarker == 0
  | some (.text ms) =>
      match ms[p.markerIdx]? with
      | none => false
      | some l =>
          decide (p.offsetInMarker ≤ l) &&
          p.offset == markerSumTake ms p.markerIdx + p.offsetInMarker

/-- Modelled from the spec: `containsNode(root, candidate)` for the editable
root — a node is contained exactly when it is a node of the rendered editor
tree (the root itself, a rendered section or marker element, or a descendant
of a rendered card); nodes outside the editable root are not contained. -/
def containsEditorNode (post : Post) : NNode → Bool
  | .root => true
  | .sectionEl s => decide (s < post.length)
  | .markerEl s m =>
      match post[s]? with
      | some (.text ms) => decide (m < ms.length)
      | _ => false
  | .cardAnchor s _ => isCardSectionIdx post s
  | .cardInner s _ => isCardSectionIdx post s
  | .outside _ => false

/-- Render nodes: the root render node, one per rendered section, one per
rendered marker. -/
inductive RNode where
  | rootR
  | sectionR (s : Nat)
  | markerR (s m : Nat)
  deriving DecidableEq, Repr

/-- Modelled from the spec: `renderTree.findRenderNodeFromElement(element)`
maps a native element to its render node when one exists, resolving a
non-rendered descendant of a rendered card (its anchors and inner nodes) to
the render node of the card; elements outside the editor map to nothing. -/
def findRenderNodeFromElement (post : Post) : NNode → Option RNode
  | .root => some .rootR
  | .sectionEl s => if s < post.length then some (.sectionR s) else none
  | .markerEl s m =>
      match post[s]? with
      | some (.text ms) => if m < ms.length then some (.markerR s m) else none
      | _ => none
  | .cardAnchor s _ => if isCardSectionIdx post s then some (.sectionR s) else none
  | .cardInner s _ => if isCardSectionIdx post s then some (.sectionR s) else none
  | .outside _ => none

/-- The `renderNode.postNode.isCardSection` test on a render node. -/
def rnIsCardSection (post : Post) : RNode → Bool
  | .sectionR s => isCardSectionIdx post s
  | _ => false

/-- The `renderNode.element` of a render node. -/
def rnElement : RNode → NNode
  | .rootR => .root
  | .sectionR s => .sectionEl s
  | .markerR s m => .markerEl s m

/-- The `firstChild` of a rendered card element (the first zero-width anchor
text node); only the card case is needed by the source. -/
def elFirstChild (post : Post) : NNode → Option NNode
  | .sectionEl s => if isCardSectionIdx post s then some (.cardAnchor s false) else none
  | _ => none

/-- The `lastChild` of a rendered card element (the last zero-width anchor
text node); only the card case is needed by the source. -/
def elLastChild (post : Post) : NNode → Option NNode
  | .sectionEl s => if isCardSectionIdx post s then some (.cardAnchor s true) else none
  | _ => none

/-- Translation of `Cursor.isAddressable`: the element must map to a render
node, and when that render node is a card section the element must be the
rendered card element itself or one of its two boundary anchors. -/
def isAddressable (post : Post) (element : NNode) : Bool :=
  match findRenderNodeFromElement post element with
  | none => false
  | some renderNode =>
      if rnIsCardSection post renderNode then
        let renderedElement := rnElement renderNode
        if element ≠ renderedElement ∧
            some element ≠ elFirstChild post renderedElement ∧
            some element ≠ elLastChild post renderedElement then
          false
        else true
      else true

/-- The gesture direction of a range (`DIRECTION.FORWARD` / `DIRECTION.BACKWARD`). -/
inductive Direction where
  | forward
  | backward
  deriving DecidableEq, Repr

/-- A logical range: head and tail positions plus the gesture direction.
The data-model invariant keeps head before tail in document order; a range
built without an explicit direction carries the forward default. -/
structure LRange where
  head : Position
  tail : Position
  direction : Direction
  deriving DecidableEq, Repr

/-- The native selection state: the installed selection as an
(anchor, focus) pair of boundary points when one exists, plus the capability
flag telling whether the platform selection object has the `extend`
primitive. -/
structure SelState where
  sel : Option (BP × BP)
  hasExtend : Bool
  deriving DecidableEq, Repr

/-- The primitive write operations performed on the native selection object:
`removeAllRanges` (selection cleared), `addRange` of a range whose start and
end become anchor and focus, and `extend`, which keeps the anchor and moves
the focus. -/
inductive SelOp where
  | removeAllRanges
  | addRange (anchor focus : BP)
  | extendSel (focus : BP)
  deriving DecidableEq, Repr

/-- Effect of one native selection write on the selection state.  `extend`
on an empty selection throws on a real platform; in every trace produced
here it only follows an `addRange`, so that branch is never reached and is
modelled as a no-op. -/
def applyOp (st : SelState) : SelOp → SelState
  | .removeAllRanges => { st with sel := none }
  | .addRange a f => { st with sel := some (a, f) }
  | .extendSel f =>
      match st.sel with
      | some (a, _) => { st with sel := some (a, f) }
      | none => st

/-- Run a trace of native selection writes on a selection state. -/
def interp (st : SelState) (ops : List SelOp) : SelState := ops.foldl applyOp st

/-- Strict lexicographic document order on boundary-point keys
(section index, position of the node within the section, native offset). -/
def keyLtP (x y : Nat × Nat × Nat) : Prop :=
  x.1 < y.1 ∨ (x.1 = y.1 ∧ (x.2.1 < y.2.1 ∨ (x.2.1 = y.2.1 ∧ x.2.2 < y.2.2)))

instance (x y : Nat × Nat × Nat) : Decidable (keyLtP x y) := by
  unfold keyLtP; infer_instance

/-- Boolean form of the strict document order on keys. -/
def keyLt (x y : Nat × Nat × Nat) : Bool := decide (keyLtP x y)

/-- Non-strict document order on keys. -/
def keyLe (x y : Nat × Nat × Nat) : Bool := keyLt x y || x == y

/-- The document-order key of a native boundary point, when the node is an
addressable point of the rendered tree: a marker element orders by its
marker index and native offset; the two card anchors order first/last; a
blank section element orders at the start of its section. -/
def bpKey (post : Post) (bp : BP) : Option (Nat × Nat × Nat) :=
  match bp.node with
  | .markerEl s m =>
      match post[s]? with
      | some (.text ms) => if m < ms.length then some (s, m, bp.off) else none
      | _ => none
  | .cardAnchor s last =>
      if isCardSectionIdx post s then some (s, if last then 1 else 0, bp.off) else none
  | .sectionEl s =>
      match post[s]? with
      | some .blank => some (s, 0, bp.off)
      | _ => none
  | _ => none

/-- Test whether boundary point `x` lies strictly before boundary point `y`
in document order (false when either point has no key). -/
def bpBefore (post : Post) (x y : BP) : Bool :=
  match bpKey post x, bpKey post y with
  | some kx, some ky => keyLt kx ky
  | _, _ => false

/-- Modelled from the spec: `comparePosition(selection)` reads the native
anchor and focus and determines head, tail and direction via a
document-order comparison: head is the earlier endpoint; the direction is
backward exactly when the focus lies strictly before the anchor, and the
forward default is used when the two endpoints coincide. -/
def comparePositionSel (post : Post) (anchor focus : BP) :
    Option (BP × BP × Direction) :=
  match bpKey post anchor, bpKey post focus with
  | some ka, some kf =>
      if keyLt ka kf then some (anchor, focus, .forward)
      else if keyLt kf ka then some (focus, anchor, .backward)
      else some (anchor, focus, .forward)
  | _, _ => none

/-- Modelled from the spec: `Position.fromNode(renderTree, node, offset)`
resolves the logical node owning the native node via the render tree and
expresses the native offset in logical terms: marker plus offset-in-marker
for text content, the nearest valid boundary position for the synthetic
anchors of a card, and the start of the section for a blank section
element. -/
def positionFromNode (post : Post) (bp : BP) : Option Position :=
  match bp.node with
  | .markerEl s m =>
      match post[s]? with
      | some (.text ms) =>
          match ms[m]? with
          | some l => if bp.off ≤ l then some ⟨s, markerSumTake ms m + bp.off, m, bp.off⟩ else none
          | none => none
      | _ => none
  | .cardAnchor s last =>
      match post[s]? with
      | some (.card len) => some ⟨s, if last then len else 0, 0, 0⟩
      | _ => none
  | .sectionEl s =>
      match post[s]? with
      | some .blank => some ⟨s, 0, 0, 0⟩
      | _ => none
  | _ => none

/-- Translation of `Cursor._findNodeForPosition`: a card-section position
maps to the first anchor at native offset 0 when its offset is 0 and to the
last anchor at native offset 0 otherwise; a blank-section position maps to
the rendered section element at offset 0; otherwise the position maps to
the rendered element of its marker at its offset inside the marker. -/
def findNodeForPosition (post : Post) (p : Position) : BP :=
  if isCardSectionIdx post p.sectionIdx then
    ⟨.cardAnchor p.sectionIdx (decide (p.offset ≠ 0)), 0⟩
  else if isBlankIdx post p.sectionIdx then
    ⟨.sectionEl p.sectionIdx, 0⟩
  else
    ⟨.markerEl p.sectionIdx p.markerIdx, p.offsetInMarker⟩

/-- Translation of `Cursor.clearSelection` (via the selection-utils
`clearSelection`): the single write that removes every range. -/
def clearSelectionOps : List SelOp := [.removeAllRanges]

/-- Translation of `Cursor._moveToNode` into its trace of native selection
writes.  The endpoints are swapped up front for a backward direction; the
created range is collapsed at its start by `setStart`; with the `extend`
capability the collapsed range is added and then extended to the other
endpoint, otherwise `setEnd` is applied — which, per the DOM boundary-point
rules, moves the start as well whenever the new end lies strictly before
the current start — and the resulting range is added. -/
def moveToNodeOps (post : Post) (hasExtend : Bool) (node endNode : BP)
    (direction : Direction) : List SelOp :=
  let p := if direction = .backward then (endNode, node) else (node, endNode)
  SelOp.removeAllRanges ::
    (if direction = .backward ∧ hasExtend then
      [SelOp.addRange p.1 p.1, SelOp.extendSel p.2]
    else if bpBefore post p.2 p.1 then
      [SelOp.addRange p.2 p.2]
    else
      [SelOp.addRange p.1 p.2])

/-- State effect of `Cursor._moveToNode`. -/
def moveToNode (post : Post) (st : SelState) (node endNode : BP)
    (direction : Direction) : SelState :=
  interp st (moveToNodeOps post st.hasExtend node endNode direction)

/-- Trace of `Cursor.selectRange`: resolve head and tail through
`_findNodeForPosition` and hand them to `_moveToNode` with the range
direction. -/
def selectRangeOps (post : Post) (hasExtend : Bool) (r : LRange) : List SelOp :=
  moveToNodeOps post hasExtend (findNodeForPosition post r.head)
    (findNodeForPosition post r.tail) r.direction

/-- Translation of `Cursor.selectRange`. -/
def selectRange (post : Post) (st : SelState) (r : LRange) : SelState :=
  interp st (selectRangeOps post st.hasExtend r)

/-- Translation of the `Cursor._selectionRange` getter, reduced to the fact
it is used for: whether the selection object holds at least one range. -/
def selectionRangeExists (st : SelState) : Bool := st.sel.isSome

/-- The `collapsed` flag of the selection range: anchor and focus are the
same boundary point. -/
def selectionCollapsed (st : SelState) : Bool :=
  match st.sel with
  | some (a, f) => a == f
  | none => true

/-- Translation of `Cursor._hasCollapsedSelection`: false when no selection
range exists, otherwise containment of the anchor node in the editor
element.  (The source never tests the collapsed flag here.) -/
def hasCollapsedSelectionImpl (post : Post) (st : SelState) : Bool :=
  match st.sel with
  | none => false
  | some (a, _) => containsEditorNode post a.node

/-- Translation of `Cursor._hasSelection`: false when no selection range
exists or the range is collapsed, otherwise containment of both the anchor
node and the focus node in the editor element. -/
def hasSelectionImpl (post : Post) (st : SelState) : Bool :=
  match st.sel with
  | none => false
  | some (a, f) =>
      if a == f then false
      else containsEditorNode post a.node && containsEditorNode post f.node

/-- Translation of `Cursor.hasCursor`. -/
def hasCursor (post : Post) (st : SelState) : Bool :=
  hasCollapsedSelectionImpl post st || hasSelectionImpl post st

/-- Translation of `Cursor.hasSelection`. -/
def hasSelection (post : Post) (st : SelState) : Bool :=
  hasSelectionImpl post st

/-- Translation of the `Cursor.offsets` getter: the empty range when there
is no cursor, otherwise the range assembled from `comparePosition` and
`Position.fromNode` on the native anchor and focus.  `none` is the empty
range; the fallible externals are threaded through `Option`. -/
def offsets (post : Post) (st : SelState) : Option LRange :=
  if hasCursor post st then
    match st.sel with
    | none => none
    | some (a, f) =>
        match comparePositionSel post a f with
        | none => none
        | some (h, t, d) =>
            match positionFromNode post h, positionFromNode post t with
            | some headPosition, some tailPosition =>
                some ⟨headPosition, tailPosition, d⟩
            | _, _ => none
  else none

/-- Modelled from the spec: `post.sections.readRange(head, tail)` walks the
section list from the head section to the tail section inclusive. -/
def readRange (post : Post) (h t : Nat) : List Nat :=
  (List.range post.length).filter (fun i => decide (h ≤ i) && decide (i ≤ t))

/-- Translation of the `Cursor.activeSections` getter: empty when there is
no cursor, otherwise the sections spanned by the head and tail of
`offsets`. -/
def activeSections (post : Post) (st : SelState) : List Nat :=
  if hasCursor post st then
    match offsets post st with
    | some r => readRange post r.head.sectionIdx r.tail.sectionIdx
    | none => []
  else []

/-- Modelled from the spec: resolution of a section offset into a marker
index and an offset inside that marker (`new Position(section, offset)`);
an offset falling on a marker boundary resolves into the earlier marker. -/
def resolveMarker : List Nat → Nat → Nat × Nat
  | [], o => (0, o)
  | l :: rest, o =>
      if o ≤ l then (0, o)
      else
        let q := resolveMarker rest (o - l)
        (q.1 + 1, q.2)

/-- Modelled from the spec: the `Position` constructor — a position in a
text section resolves its marker decomposition; card and blank sections
carry no marker. -/
def positionMake (post : Post) (s offset : Nat) : Position :=
  match post[s]? with
  | some (.text ms) =>
      let q := resolveMarker ms offset
      ⟨s, offset, q.1, q.2⟩
  | _ => ⟨s, offset, 0, 0⟩

/-- The document-order key of a logical position, matching the key of its
native boundary point. -/
def posKey (post : Post) (p : Position) : Nat × Nat × Nat :=
  match post[p.sectionIdx]? with
  | some (.card _) => (p.sectionIdx, if p.offset == 0 then 0 else 1, 0)
  | some .blank => (p.sectionIdx, 0, 0)
  | _ => (p.sectionIdx, p.markerIdx, p.offsetInMarker)

/-- Modelled from the spec: `Range.create(headSection, headOffset,
tailSection, tailOffset)` builds the two positions and normalizes the
storage order to document order; a range built this way carries the forward
default direction. -/
def rangeCreate (post : Post) (hs ho ts to' : Nat) : LRange :=
  let hp := positionMake post hs ho
  let tp := positionMake post ts to'
  if keyLt (posKey post tp) (posKey post hp) then ⟨tp, hp, .forward⟩
  else ⟨hp, tp, .forward⟩

/-- Translation of `Cursor.moveToPosition`: select the collapsed range at
the position (`new Range(position, position)`, forward default). -/
def moveToPosition (post : Post) (st : SelState) (p : Position) : SelState :=
  selectRange post st ⟨p, p, .forward⟩

/-- Trace of `Cursor.moveToPosition`. -/
def moveToPositionOps (post : Post) (hasExtend : Bool) (p : Position) : List SelOp :=
  selectRangeOps post hasExtend ⟨p, p, .forward⟩

/-- Translation of `Cursor.moveToSection`: move to the position built from
the section and the offset (default 0 at call sites). -/
def moveToSection (post : Post) (st : SelState) (s offsetInSection : Nat) : SelState :=
  moveToPosition post st (positionMake post s offsetInSection)

/-- Trace of `Cursor.moveToSection`. -/
def moveToSectionOps (post : Post) (hasExtend : Bool) (s offsetInSection : Nat) :
    List SelOp :=
  moveToPositionOps post hasExtend (positionMake post s offsetInSection)

/-- Translation of `Cursor.selectSections`: read the first and the last
listed section and select the range from offset 0 of the first to the full
length of the last.  On an empty list the source dereferences an absent
element (`sections[sections.length - 1].length` on `undefined`); the thrown
failure is modelled as `none`. -/
def selectSections (post : Post) (st : SelState) (sections : List Nat) :
    Option SelState :=
  match sections with
  | [] => none
  | s :: rest =>
      let headSection := s
      let tailSection := (s :: rest).getLast (List.cons_ne_nil s rest)
      some (selectRange post st
        (rangeCreate post headSection 0 tailSection (sectionLength post tailSection)))

/-- Trace of `Cursor.selectSections` (for a non-empty list). -/
def selectSectionsOps (post : Post) (hasExtend : Bool) (sections : List Nat) :
    Option (List SelOp) :=
  match sections with
  | [] => none
  | s :: rest =>
      let tailSection := (s :: rest).getLast (List.cons_ne_nil s rest)
      some (selectRangeOps post hasExtend
        (rangeCreate post s 0 tailSection (sectionLength post tailSection)))

/-- Write-trace of `Cursor.hasCursor`: its body performs no native
selection write. -/
def hasCursorOps : List SelOp := []

/-- Write-trace of `Cursor.hasSelection`: no native selection write. -/
def hasSelectionOps : List SelOp := []

/-- Write-trace of `Cursor.isAddressable`: no native selection write. -/
def isAddressableOps : List SelOp := []

/-- Write-trace of the `Cursor.offsets` getter: no native selection
write. -/
def offsetsOps : List SelOp := []

/-- Write-trace of the `Cursor.activeSections` getter: no native selection
write. -/
def activeSectionsOps : List SelOp := []

/-- Write-trace of `Cursor.selectedText` (a read-through of
`selection.toString()`): no native selection write. -/
def selectedTextOps : List SelOp := []

/-- Number of `addRange` writes in a trace. -/
def countAddRange (ops : List SelOp) : Nat :=
  ops.countP (fun op => match op with | .addRange _ _ => true | _ => false)

/-! Concrete fixtures used by witnesses and counterexamples. -/

/-- A one-section post: a text section with a single marker of length 2. -/
def post1 : Post := [.text [2]]

/-- The scenario post of the spec: a text section, a card, a text section. -/
def postS : Post := [.text [2], .card 1, .text [2]]

/-- A one-section post holding a card of logical length 3. -/
def postC : Post := [.card 3]

/-- A backward range over the whole marker of `post1`. -/
def rBackNoExt : LRange := ⟨⟨0, 0, 0, 0⟩, ⟨0, 2, 0, 2⟩, .backward⟩

/-- A collapsed range in `post1` carrying the backward direction flag. -/
def rCollapsedBack : LRange := ⟨⟨0, 1, 0, 1⟩, ⟨0, 1, 0, 1⟩, .backward⟩

/-- A forward range over the whole marker of `post1`. -/
def rForwardW : LRange := ⟨⟨0, 0, 0, 0⟩, ⟨0, 2, 0, 2⟩, .forward⟩

/-! Helper lemmas. -/

theorem keyLt_irrefl (k : Nat × Nat × Nat) : keyLt k k = false := by
  obtain ⟨a, b, c⟩ := k
  rw [keyLt, decide_eq_false_iff_not]
  simp [keyLtP]

theorem keyLt_asymm {x y : Nat × Nat × Nat} (h : keyLt x y = true) :
    keyLt y x = false := by
  obtain ⟨a, b, c⟩ := x
  obtain ⟨d, e, f⟩ := y
  rw [keyLt, decide_eq_true_eq] at h
  rw [keyLt, decide_eq_false_iff_not]
  simp only [keyLtP] at h ⊢
  omega

/-- A section index with a section body is in bounds. -/
theorem sectionIdx_lt_of_get {post : Post} {s : Nat} {b : SectionBody}
    (h : post[s]? = some b) : s < post.length := by
  exact (List.getElem?_eq_some.mp h).1

/-- The native endpoint of a valid position is contained in the editor
element. -/
theorem contains_findNodeForPosition {post : Post} {p : Position}
    (h : validPosition post p = true) :
    containsEditorNode post (findNodeForPosition post p).node = true := by
  obtain ⟨ps, po, pm, pi⟩ := p
  unfold validPosition at h
  rcases hsec : post[ps]? with _ | b
  · simp only [hsec] at h
    exact Bool.noConfusion h
  simp only [hsec] at h
  cases b with
  | card len =>
      have hcard : isCardSectionIdx post ps = true := by
        unfold isCardSectionIdx; rw [hsec]
      simp [findNodeForPosition, hcard, containsEditorNode]
  | blank =>
      have hcard : isCardSectionIdx post ps = false := by
        unfold isCardSectionIdx; rw [hsec]
      have hblank : isBlankIdx post ps = true := by
        unfold isBlankIdx; rw [hsec]
      simp [findNodeForPosition, hcard, hblank, containsEditorNode,
        sectionIdx_lt_of_get hsec]
  | text ms =>
      have hcard : isCardSectionIdx post ps = false := by
        unfold isCardSectionIdx; rw [hsec]
      have hblank : isBlankIdx post ps = false := by
        unfold isBlankIdx; rw [hsec]
      rcases hm : ms[pm]? with _ | l
      · simp only [hm] at h
        exact Bool.noConfusion h
      simp [findNodeForPosition, hcard, hblank, containsEditorNode, hsec,
        (List.getElem?_eq_some.mp hm).1]

/-- Mapping a valid position to its native endpoint and back through
`Position.fromNode` reproduces the position. -/
theorem positionFromNode_findNodeForPosition {post : Post} {p : Position}
    (h : validPosition post p = true) :
    positionFromNode post (findNodeForPosition post p) = some p := by
  obtain ⟨ps, po, pm, pi⟩ := p
  unfold validPosition at h
  rcases hsec : post[ps]? with _ | b
  · simp only [hsec] at h
    exact Bool.noConfusion h
  simp only [hsec] at h
  cases b with
  | card len =>
      have hcard : isCardSectionIdx post ps = true := by
        unfold isCardSectionIdx; rw [hsec]
      simp only [Bool.and_eq_true, Bool.or_eq_true, beq_iff_eq] at h
      obtain ⟨⟨hoff, hm0⟩, hi0⟩ := h
      subst hm0; subst hi0
      by_cases h0 : po = 0
      · subst h0
        simp [findNodeForPosition, hcard, positionFromNode, hsec]
      · have hlen : po = len := hoff.resolve_left h0
        subst hlen
        simp [findNodeForPosition, hcard, positionFromNode, hsec, h0]
  | blank =>
      have hcard : isCardSectionIdx post ps = false := by
        unfold isCardSectionIdx; rw [hsec]
      have hblank : isBlankIdx post ps = true := by
        unfold isBlankIdx; rw [hsec]
      simp only [Bool.and_eq_true, beq_iff_eq] at h
      obtain ⟨⟨h0, hm0⟩, hi0⟩ := h
      subst h0; subst hm0; subst hi0
      simp [findNodeForPosition, hcard, hblank, positionFromNode, hsec]
  | text ms =>
      have hcard : isCardSectionIdx post ps = false := by
        unfold isCardSectionIdx; rw [hsec]
      have hblank : isBlankIdx post ps = false := by
        unfold isBlankIdx; rw [hsec]
      rcases hm : ms[pm]? with _ | l
      · simp only [hm] at h
        exact Bool.noConfusion h
      simp only [hm, Bool.and_eq_true, decide_eq_true_eq, beq_iff_eq] at h
      obtain ⟨hle, hoff⟩ := h
      subst hoff
      simp [findNodeForPosition, hcard, hblank, positionFromNode, hsec, hm, hle]

/-- The document-order key of the native endpoint of a valid position is
the key of the position. -/
theorem bpKey_findNodeForPosition {post : Post} {p : Position}
    (h : validPosition post p = true) :
    bpKey post (findNodeForPosition post p) = some (posKey post p) := by
  obtain ⟨ps, po, pm, pi⟩ := p
  unfold validPosition at h
  rcases hsec : post[ps]? with _ | b
  · simp only [hsec] at h
    exact Bool.noConfusion h
  simp only [hsec] at h
  cases b with
  | card len =>
      have hcard : isCardSectionIdx post ps = true := by
        unfold isCardSectionIdx; rw [hsec]
      by_cases h0 : po = 0 <;>
        simp [findNodeForPosition, hcard, bpKey, posKey, hsec, h0]
  | blank =>
      have hcard : isCardSectionIdx post ps = false := by
        unfold isCardSectionIdx; rw [hsec]
      have hblank : isBlankIdx post ps = true := by
        unfold isBlankIdx; rw [hsec]
      simp [findNodeForPosition, hcard, hblank, bpKey, posKey, hsec]
  | text ms =>
      have hcard : isCardSectionIdx post ps = false := by
        unfold isCardSectionIdx; rw [hsec]
      have hblank : isBlankIdx post ps = false := by
        unfold isBlankIdx; rw [hsec]
      rcases hm : ms[pm]? with _ | l
      · simp only [hm] at h
        exact Bool.noConfusion h
      simp [findNodeForPosition, hcard, hblank, bpKey, posKey, hsec,
        (List.getElem?_eq_some.mp hm).1]

/-- First component of a position key is the section index. -/
theorem posKey_fst (post : Post) (p : Position) :
    (posKey post p).1 = p.sectionIdx := by
  unfold posKey
  rcases post[p.sectionIdx]? with _ | b
  · rfl
  · cases b <;> rfl

/-- Keys separate valid positions: equal keys mean equal positions. -/
theorem posKey_inj {post : Post} {p q : Position}
    (hp : validPosition post p = true) (hq : validPosition post q = true)
    (hk : posKey post p = posKey post q) : p = q := by
  have hs : p.sectionIdx = q.sectionIdx := by
    have h1 := posKey_fst post p
    have h2 := posKey_fst post q
    rw [hk] at h1
    omega
  unfold validPosition at hp hq
  rw [hs] at hp
  unfold posKey at hk
  rw [hs] at hk
  rcases hsec : post[q.sectionIdx]? with _ | b
  · simp only [hsec] at hp
    exact Bool.noConfusion hp
  simp only [hsec] at hp hq hk
  cases b with
  | card len =>
      simp only [Bool.and_eq_true, Bool.or_eq_true, beq_iff_eq] at hp hq
      obtain ⟨⟨hpo, hpm⟩, hpi⟩ := hp
      obtain ⟨⟨hqo, hqm⟩, hqi⟩ := hq
      have h2 : (if p.offset == 0 then 0 else 1 : Nat) =
          (if q.offset == 0 then 0 else 1) := congrArg (fun k => k.2.1) hk
      have hoo : p.offset = q.offset := by
        by_cases hp0 : p.offset = 0 <;> by_cases hq0 : q.offset = 0 <;>
          simp only [hp0, hq0, beq_self_eq_true, if_true, beq_iff_eq, if_neg,
            reduceIte] at h2 ⊢ <;> omega
      cases p; cases q; simp_all
  | blank =>
      simp only [Bool.and_eq_true, beq_iff_eq] at hp hq
      cases p; cases q; simp_all
  | text ms =>
      rcases hm : ms[p.markerIdx]? with _ | l
      · simp only [hm] at hp
        exact Bool.noConfusion hp
      rcases hn : ms[q.markerIdx]? with _ | l'
      · simp only [hn] at hq
        exact Bool.noConfusion hq
      simp only [hm] at hp; simp only [hn] at hq
      simp only [Bool.and_eq_true, decide_eq_true_eq, beq_iff_eq] at hp hq
      have hmm : p.markerIdx = q.markerIdx := congrArg (fun k => k.2.1) hk
      have hii : p.offsetInMarker = q.offsetInMarker := congrArg (fun k => k.2.2) hk
      cases p; cases q; simp_all

theorem keyLe_cases {x y : Nat × Nat × Nat} (h : keyLe x y = true) :
    keyLt x y = true ∨ x = y := by
  unfold keyLe at h
  rcases Bool.or_eq_true_iff.mp h with h1 | h1
  · exact Or.inl h1
  · exact Or.inr (beq_iff_eq.mp h1)

/-- Evaluation of `comparePosition` when the anchor lies strictly before
the focus. -/
theorem comparePositionSel_lt {post : Post} {a f : BP} {ka kf : Nat × Nat × Nat}
    (hka : bpKey post a = some ka) (hkf : bpKey post f = some kf)
    (h : keyLt ka kf = true) :
    comparePositionSel post a f = some (a, f, .forward) := by
  unfold comparePositionSel
  rw [hka, hkf]
  simp [h]

/-- Evaluation of `comparePosition` when the focus lies strictly before
the anchor. -/
theorem comparePositionSel_gt {post : Post} {a f : BP} {ka kf : Nat × Nat × Nat}
    (hka : bpKey post a = some ka) (hkf : bpKey post f = some kf)
    (h1 : keyLt ka kf = false) (h2 : keyLt kf ka = true) :
    comparePositionSel post a f = some (f, a, .backward) := by
  unfold comparePositionSel
  rw [hka, hkf]
  simp [h1, h2]

/-- Evaluation of `comparePosition` when the two endpoints coincide in
document order. -/
theorem comparePositionSel_eq {post : Post} {a f : BP} {ka kf : Nat × Nat × Nat}
    (hka : bpKey post a = some ka) (hkf : bpKey post f = some kf)
    (h1 : keyLt ka kf = false) (h2 : keyLt kf ka = false) :
    comparePositionSel post a f = some (a, f, .forward) := by
  unfold comparePositionSel
  rw [hka, hkf]
  simp [h1, h2]

/-- Evaluation of the `offsets` getter on an installed selection whose
anchor is contained in the editor element. -/
theorem offsets_eq_of {post : Post} {a f hbp tbp : BP} {d : Direction}
    {hp tp : Position} {he : Bool}
    (hca : containsEditorNode post a.node = true)
    (hcmp : comparePositionSel post a f = some (hbp, tbp, d))
    (hh : positionFromNode post hbp = some hp)
    (ht : positionFromNode post tbp = some tp) :
    offsets post ⟨some (a, f), he⟩ = some ⟨hp, tp, d⟩ := by
  have hcur : hasCursor post ⟨some (a, f), he⟩ = true := by
    unfold hasCursor hasCollapsedSelectionImpl
    simp [hca]
  unfold offsets
  simp only [hcur, if_true, hcmp, hh, ht]

/-- State reached by `selectRange` for a forward range whose tail endpoint
does not lie strictly before its head endpoint: the span from head to tail
is installed. -/
theorem selectRange_forward (post : Post) (st : SelState) (r : LRange)
    (hd : r.direction = .forward)
    (hnb : bpBefore post (findNodeForPosition post r.tail)
      (findNodeForPosition post r.head) = false) :
    selectRange post st r =
      ⟨some (findNodeForPosition post r.head, findNodeForPosition post r.tail),
        st.hasExtend⟩ := by
  unfold selectRange selectRangeOps moveToNodeOps interp
  rw [hd]
  simp [hnb, applyOp]

/-- State reached by `selectRange` for a backward range on a platform with
the `extend` primitive: a collapsed range is added at the tail endpoint and
extended to the head endpoint, so the anchor rests at tail and the focus at
head. -/
theorem selectRange_backward_extend (post : Post) (st : SelState) (r : LRange)
    (hd : r.direction = .backward) (he : st.hasExtend = true) :
    selectRange post st r =
      ⟨some (findNodeForPosition post r.tail, findNodeForPosition post r.head),
        st.hasExtend⟩ := by
  unfold selectRange selectRangeOps moveToNodeOps interp
  rw [hd, he]
  simp [applyOp, he]

/-- The last element of a non-empty list is the element at index
`length - 1` (with default). -/
theorem list_getLast_eq_getD :
    ∀ (l : List Nat) (h : l ≠ []), l.getLast h = l.getD (l.length - 1) 0
  | [a], _ => rfl
  | a :: b :: t, _ => by
      have ih := list_getLast_eq_getD (b :: t) (List.cons_ne_nil b t)
      show (b :: t).getLast (List.cons_ne_nil b t) = _
      rw [ih]
      simp only [List.length_cons]
      rfl

/-- The trace of `_moveToNode` always begins with the selection-clearing
write and then installs at most one range. -/
theorem moveToNodeOps_shape (post : Post) (he : Bool) (n e : BP) (d : Direction) :
    ∃ rest, moveToNodeOps post he n e d = SelOp.removeAllRanges :: rest ∧
      countAddRange rest ≤ 1 := by
  refine ⟨_, rfl, ?_⟩
  cases d <;> cases he <;> split_ifs <;> simp [countAddRange]

/-! Claim theorems. -/

/-- C6: `isAddressable(e)` is true exactly when the render tree maps `e` to
a render node and, in case that render node is a card section, `e` is one of
the three addressable elements: the rendered card element, its first child,
or its last child. -/
theorem c6_isAddressable_iff (post : Post) (e : NNode) :
    isAddressable post e = true ↔
      ∃ rn, findRenderNodeFromElement post e = some rn ∧
        (rnIsCardSection post rn = true →
          (e = rnElement rn ∨ some e = elFirstChild post (rnElement rn) ∨
            some e = elLastChild post (rnElement rn))) := by
  unfold isAddressable
  rcases hrn : findRenderNodeFromElement post e with _ | rn
  · simp
  simp only [Option.some.injEq]
  by_cases hc : rnIsCardSection post rn = true
  · simp only [hc, if_true]
    constructor
    · intro h
      refine ⟨rn, rfl, fun _ => ?_⟩
      by_contra hno
      push_neg at hno
      obtain ⟨h1, h2, h3⟩ := hno
      rw [if_pos ⟨h1, h2, h3⟩] at h
      exact Bool.noConfusion h
    · rintro ⟨rn', heq, himp⟩
      obtain rfl : rn = rn' := heq
      have hd := himp hc
      rw [if_neg]
      intro hand
      obtain ⟨h1, h2, h3⟩ := hand
      rcases hd with d | d | d
      · exact h1 d
      · exact h2 d
      · exact h3 d
  · have hc' : rnIsCardSection post rn = false := by
      exact Bool.eq_false_iff.mpr hc
    simp only [hc', Bool.false_eq_true, if_false]
    constructor
    · intro _
      exact ⟨rn, rfl, fun hcc => absurd hcc hc⟩
    · intro _
      trivial

/-- C8: for every non-empty list of sections, `selectSections` installs the
selection produced by `Range.create(sections[0], 0, lastSection,
lastSection.length)`. -/
theorem c8_selectSections_range (post : Post) (st : SelState) (s : Nat)
    (rest : List Nat) :
    selectSections post st (s :: rest) =
      some (selectRange post st
        (rangeCreate post ((s :: rest).getD 0 0) 0
          ((s :: rest).getD ((s :: rest).length - 1) 0)
          (sectionLength post ((s :: rest).getD ((s :: rest).length - 1) 0)))) := by
  simp only [selectSections]
  rw [list_getLast_eq_getD]
  rfl

/-- C4: for every native selection whose anchor node and focus node both lie
outside the editable root element, `hasCursor()` returns false — the
selection reports as absent, never as a valid selection. -/
theorem c4_hasCursor_false_outside (post : Post) (st : SelState) (a f : BP)
    (hsel : st.sel = some (a, f))
    (ha : containsEditorNode post a.node = false)
    (hf : containsEditorNode post f.node = false) :
    hasCursor post st = false := by
  unfold hasCursor hasCollapsedSelectionImpl hasSelectionImpl
  simp only [hsel, ha, hf]
  simp

/-- Witness for C4 at a concrete selection lying entirely outside the
editor. -/
theorem c4_witness :
    hasCursor post1 ⟨some (⟨.outside 0, 0⟩, ⟨.outside 1, 2⟩), true⟩ = false :=
  c4_hasCursor_false_outside post1 ⟨some (⟨.outside 0, 0⟩, ⟨.outside 1, 2⟩), true⟩
    ⟨.outside 0, 0⟩ ⟨.outside 1, 2⟩ rfl (by decide) (by decide)

/-- C7: whenever `hasCursor()` is false, the `offsets` getter returns the
empty range and `activeSections` returns the empty sequence; neither
throws. -/
theorem c7_no_cursor_empty (post : Post) (st : SelState)
    (h : hasCursor post st = false) :
    offsets post st = none ∧ activeSections post st = [] := by
  unfold offsets activeSections
  simp [h]

/-- Witness for C7 at the empty native selection. -/
theorem c7_witness :
    offsets post1 ⟨none, false⟩ = none ∧ activeSections post1 ⟨none, false⟩ = [] :=
  c7_no_cursor_empty post1 ⟨none, false⟩ (by decide)

/-- C5: for every position in a card section, the native endpoint has
native offset 0; offset 0 maps to the first anchor, every nonzero offset
(interior offsets included) maps to the last anchor, the endpoints for
offset 0 and offset = length are two distinct anchors, and the mapping is
not injective on interior offsets. -/
theorem c5_card_endpoint_mapping (post : Post) (s len : Nat)
    (hs : post[s]? = some (.card len)) (hlen : 0 < len) :
    (∀ p : Position, p.sectionIdx = s → p.offset = 0 →
        findNodeForPosition post p = ⟨.cardAnchor s false, 0⟩) ∧
    (∀ p : Position, p.sectionIdx = s → p.offset ≠ 0 →
        findNodeForPosition post p = ⟨.cardAnchor s true, 0⟩) ∧
    (∀ p q : Position, p.sectionIdx = s → q.sectionIdx = s →
        p.offset = 0 → q.offset = len →
        findNodeForPosition post p ≠ findNodeForPosition post q) ∧
    (∀ k : Nat, 0 < k → k < len → ∀ p q : Position,
        p.sectionIdx = s → q.sectionIdx = s → p.offset = k → q.offset = len →
        (findNodeForPosition post p = findNodeForPosition post q ∧ k ≠ len)) := by
  have hcard : isCardSectionIdx post s = true := by
    unfold isCardSectionIdx; rw [hs]
  refine ⟨?_, ?_, ?_, ?_⟩
  · intro p hp h0
    simp [findNodeForPosition, hp, hcard, h0]
  · intro p hp h0
    simp [findNodeForPosition, hp, hcard, h0]
  · intro p q hp hq h0 hq0
    have hql : q.offset ≠ 0 := by omega
    simp [findNodeForPosition, hp, hq, hcard, h0, hql]
  · intro k hk1 hk2 p q hp hq hpk hql
    have hp0 : p.offset ≠ 0 := by omega
    have hq0 : q.offset ≠ 0 := by omega
    constructor
    · simp [findNodeForPosition, hp, hq, hcard, hp0, hq0]
    · omega

/-- Witness for C5 on a card of length 3: the boundary endpoints are the
two distinct anchors and the interior offset 1 shares the endpoint of
offset 3. -/
theorem c5_witness :
    findNodeForPosition postC ⟨0, 0, 0, 0⟩ = ⟨.cardAnchor 0 false, 0⟩ ∧
    findNodeForPosition postC ⟨0, 3, 0, 0⟩ = ⟨.cardAnchor 0 true, 0⟩ ∧
    findNodeForPosition postC ⟨0, 0, 0, 0⟩ ≠ findNodeForPosition postC ⟨0, 3, 0, 0⟩ ∧
    findNodeForPosition postC ⟨0, 1, 0, 0⟩ = findNodeForPosition postC ⟨0, 3, 0, 0⟩ := by
  obtain ⟨h1, h2, h3, h4⟩ := c5_card_endpoint_mapping postC 0 3 (by decide) (by decide)
  exact ⟨h1 ⟨0, 0, 0, 0⟩ rfl rfl, h2 ⟨0, 3, 0, 0⟩ rfl (by decide),
    h3 ⟨0, 0, 0, 0⟩ ⟨0, 3, 0, 0⟩ rfl rfl rfl rfl,
    (h4 1 (by decide) (by decide) ⟨0, 1, 0, 0⟩ ⟨0, 3, 0, 0⟩ rfl rfl rfl rfl).1⟩

/-- C10: `selectSections` requires a non-empty list — on the empty list the
source dereferences an absent element (modelled as `none`, no resulting
selection state), while every non-empty list produces a state. -/
theorem c10_selectSections_empty_precondition (post : Post) (st : SelState) :
    selectSections post st [] = none ∧
      ∀ s rest, (selectSections post st (s :: rest)).isSome = true :=
  ⟨rfl, fun _ _ => rfl⟩

/-- C3 (divergence evaluation): a non-collapsed native selection whose
anchor lies inside the editable root and whose focus lies outside makes
`hasCursor()` return true, although the selection is neither a contained
collapsed point nor a fully contained selection — the source never tests
the collapsed flag in `_hasCollapsedSelection`. -/
theorem c3_hasCursor_divergence :
    hasCursor post1 ⟨some (⟨.markerEl 0 0, 0⟩, ⟨.outside 0, 0⟩), true⟩ = true ∧
    selectionCollapsed ⟨some (⟨.markerEl 0 0, 0⟩, ⟨.outside 0, 0⟩), true⟩ = false ∧
    containsEditorNode post1 (NNode.markerEl 0 0) = true ∧
    containsEditorNode post1 (NNode.outside 0) = false ∧
    hasSelection post1 ⟨some (⟨.markerEl 0 0, 0⟩, ⟨.outside 0, 0⟩), true⟩ = false := by
  decide

/-- C2 (divergence evaluation): for a strictly backward range on a platform
without the `extend` primitive, `selectRange` installs a selection collapsed
at the head endpoint — the head-to-tail span is not preserved, because the
endpoint swap happens before the non-extend branch and the DOM
boundary-point rule collapses `setEnd` to the earlier point. -/
theorem c2_backward_fallback_collapses :
    (selectRange post1 ⟨none, false⟩ rBackNoExt).sel =
      some (⟨.markerEl 0 0, 0⟩, ⟨.markerEl 0 0, 0⟩) ∧
    findNodeForPosition post1 rBackNoExt.head = ⟨.markerEl 0 0, 0⟩ ∧
    findNodeForPosition post1 rBackNoExt.tail = ⟨.markerEl 0 0, 2⟩ ∧
    (⟨.markerEl 0 0, 0⟩ : BP) ≠ ⟨.markerEl 0 0, 2⟩ ∧
    offsets post1 (selectRange post1 ⟨none, false⟩ rBackNoExt) =
      some ⟨⟨0, 0, 0, 0⟩, ⟨0, 0, 0, 0⟩, .forward⟩ := by
  decide

/-- C9: the read-only operations (`hasCursor`, `hasSelection`,
`isAddressable`, `offsets`, `activeSections`, `selectedText`) perform no
native selection write, so running their (empty) write-traces leaves the
selection state unchanged; every mutator (`clearSelection`, `selectRange`,
`moveToPosition`, `moveToSection`, `selectSections` on a non-empty list)
routes through the selection-clearing write first and installs at most one
range afterwards. -/
theorem c9_reads_pure_writes_clear_first (post : Post) (he : Bool) (r : LRange)
    (p : Position) (s off sHead : Nat) (ssRest : List Nat) (st : SelState) :
    interp st hasCursorOps = st ∧ interp st hasSelectionOps = st ∧
    interp st isAddressableOps = st ∧ interp st offsetsOps = st ∧
    interp st activeSectionsOps = st ∧ interp st selectedTextOps = st ∧
    clearSelectionOps = [SelOp.removeAllRanges] ∧
    (∃ rest, selectRangeOps post he r = SelOp.removeAllRanges :: rest ∧
      countAddRange rest ≤ 1) ∧
    (∃ rest, moveToPositionOps post he p = SelOp.removeAllRanges :: rest ∧
      countAddRange rest ≤ 1) ∧
    (∃ rest, moveToSectionOps post he s off = SelOp.removeAllRanges :: rest ∧
      countAddRange rest ≤ 1) ∧
    (∃ ops rest, selectSectionsOps post he (sHead :: ssRest) = some ops ∧
      ops = SelOp.removeAllRanges :: rest ∧ countAddRange rest ≤ 1) := by
  refine ⟨rfl, rfl, rfl, rfl, rfl, rfl, rfl, ?_, ?_, ?_, ?_⟩
  · exact moveToNodeOps_shape post he _ _ _
  · exact moveToNodeOps_shape post he _ _ _
  · exact moveToNodeOps_shape post he _ _ _
  · obtain ⟨rest, h1, h2⟩ := moveToNodeOps_shape post he
      (findNodeForPosition post
        (rangeCreate post sHead 0 ((sHead :: ssRest).getLast (List.cons_ne_nil sHead ssRest))
          (sectionLength post ((sHead :: ssRest).getLast (List.cons_ne_nil sHead ssRest)))).head)
      (findNodeForPosition post
        (rangeCreate post sHead 0 ((sHead :: ssRest).getLast (List.cons_ne_nil sHead ssRest))
          (sectionLength post ((sHead :: ssRest).getLast (List.cons_ne_nil sHead ssRest)))).tail)
      (rangeCreate post sHead 0 ((sHead :: ssRest).getLast (List.cons_ne_nil sHead ssRest))
        (sectionLength post ((sHead :: ssRest).getLast (List.cons_ne_nil sHead ssRest)))).direction
    exact ⟨_, rest, rfl, h1, h2⟩

/-- C1 (counterexample): a collapsed range carrying the backward direction,
with valid endpoints in a rendered section and on a platform supporting the
`extend` primitive, reads back from `offsets` with direction forward — the
direction of the range is not preserved as the claim states. -/
theorem c1_counterexample :
    validPosition post1 rCollapsedBack.head = true ∧
    validPosition post1 rCollapsedBack.tail = true ∧
    rCollapsedBack.direction = Direction.backward ∧
    (⟨none, true⟩ : SelState).hasExtend = true ∧
    offsets post1 (selectRange post1 ⟨none, true⟩ rCollapsedBack) =
      some ⟨rCollapsedBack.head, rCollapsedBack.tail, Direction.forward⟩ ∧
    Direction.forward ≠ Direction.backward := by
  decide

/-- C1 (amended): for every range with valid endpoints in rendered sections
whose head does not lie after its tail in document order, provided the
range is forward or the platform supports `extend`, `selectRange` followed
by `offsets` reproduces head and tail exactly; the direction is preserved
whenever the head lies strictly before the tail, while a collapsed range
always reads back as forward; and in the backward-with-extend case the
selection is installed with its anchor at the tail endpoint and its focus
extended to the head endpoint. -/
theorem c1_selectRange_offsets_roundtrip (post : Post) (st : SelState)
    (r : LRange)
    (hh : validPosition post r.head = true)
    (ht : validPosition post r.tail = true)
    (hord : keyLe (posKey post r.head) (posKey post r.tail) = true) :
    ((r.direction = .forward ∨ st.hasExtend = true) →
      ∃ d, offsets post (selectRange post st r) = some ⟨r.head, r.tail, d⟩ ∧
        (keyLt (posKey post r.head) (posKey post r.tail) = true →
          d = r.direction) ∧
        (posKey post r.head = posKey post r.tail → d = Direction.forward)) ∧
    (r.direction = .backward → st.hasExtend = true →
      (selectRange post st r).sel =
        some (findNodeForPosition post r.tail, findNodeForPosition post r.head)) := by
  have hkh := bpKey_findNodeForPosition hh
  have hkt := bpKey_findNodeForPosition ht
  have hch := contains_findNodeForPosition hh
  have hct := contains_findNodeForPosition ht
  have hph := positionFromNode_findNodeForPosition hh
  have hpt := positionFromNode_findNodeForPosition ht
  constructor
  · intro hcase
    rcases keyLe_cases hord with hlt | heq
    · have hnlt : keyLt (posKey post r.tail) (posKey post r.head) = false :=
        keyLt_asymm hlt
      cases hdir : r.direction with
      | forward =>
          have hst := selectRange_forward post st r hdir
            (by unfold bpBefore; rw [hkt, hkh]; exact hnlt)
          rw [hst]
          refine ⟨Direction.forward,
            offsets_eq_of hch (comparePositionSel_lt hkh hkt hlt) hph hpt,
            fun _ => rfl, fun _ => rfl⟩
      | backward =>
          have he : st.hasExtend = true := by
            rcases hcase with hf | he
            · exact absurd (hdir.symm.trans hf) (by simp)
            · exact he
          have hst := selectRange_backward_extend post st r hdir he
          rw [hst]
          refine ⟨Direction.backward,
            offsets_eq_of hct (comparePositionSel_gt hkt hkh hnlt hlt) hph hpt,
            fun _ => rfl, fun hq => ?_⟩
          rw [hq, keyLt_irrefl] at hlt
          exact Bool.noConfusion hlt
    · have hpe : r.head = r.tail := posKey_inj hh ht heq
      have h1 : keyLt (posKey post r.head) (posKey post r.tail) = false := by
        rw [heq, keyLt_irrefl]
      have h2 : keyLt (posKey post r.tail) (posKey post r.head) = false := by
        rw [heq, keyLt_irrefl]
      cases hdir : r.direction with
      | forward =>
          have hst := selectRange_forward post st r hdir
            (by unfold bpBefore; rw [hkt, hkh]; exact h2)
          rw [hst]
          refine ⟨Direction.forward,
            offsets_eq_of hch (comparePositionSel_eq hkh hkt h1 h2) hph hpt,
            fun hc => ?_, fun _ => rfl⟩
          rw [h1] at hc
      | backward =>
          have he : st.hasExtend = true := by
            rcases hcase with hf | he
            · exact absurd (hdir.symm.trans hf) (by simp)
            · exact he
          have hst := selectRange_backward_extend post st r hdir he
          rw [hst]
          refine ⟨Direction.forward, ?_, fun hc => ?_, fun _ => rfl⟩
          · have hof : offsets post
                ⟨some (findNodeForPosition post r.tail, findNodeForPosition post r.head),
                  st.hasExtend⟩ = some ⟨r.tail, r.head, Direction.forward⟩ :=
              offsets_eq_of hct (comparePositionSel_eq hkt hkh h2 h1) hpt hph
            rw [hof, hpe]
          · rw [h1] at hc
            exact Bool.noConfusion hc
  · intro hb he
    rw [selectRange_backward_extend post st r hb he]

/-- Witness for the amended C1 at a concrete forward range over the whole
marker of a one-section post. -/
theorem c1_witness :
    ∃ d, offsets post1 (selectRange post1 ⟨none, true⟩ rForwardW) =
        some ⟨rForwardW.head, rForwardW.tail, d⟩ ∧
      (keyLt (posKey post1 rForwardW.head) (posKey post1 rForwardW.tail) = true →
        d = rForwardW.direction) ∧
      (posKey post1 rForwardW.head = posKey post1 rForwardW.tail →
        d = Direction.forward) :=
  (c1_selectRange_offsets_roundtrip post1 ⟨none, true⟩ rForwardW
    (by decide) (by decide) (by decide)).1 (Or.inl rfl)

end MobiledocCursor
